import Mathlib

/-!
Formal model of the PyMORESANE deconvolution core (PyMORESANE repository:
`pymoresane/main.py` and `iuwt_toolbox.py`), together with theorems checking
the natural-language specification against the code.

Modelling conventions.

Images are total functions from a finite index type into the rationals: the
code works on `numpy.float32` arrays, and we model the float arithmetic by
exact rational arithmetic, as is usual for a shallow embedding (claims about
float rounding itself are out of scope).  The circular-convolution routine of
`iuwt_toolbox.py` composes `fft2`/`ifft2` from the external FFT backend; by
the convolution theorem that composite is the cyclic convolution, and we embed
it directly as the cyclic-convolution sum (the FFT backend is an external
collaborator of the repository).

The modules `pymoresane.iuwt`, `pymoresane.iuwt_convolution` and
`pymoresane.iuwt_toolbox` that `main.py` imports are not part of the source
tree given here (only their caller `main.py` and the standalone
`iuwt_toolbox.py` are).  Where a claim depends only on the driver logic of
`main.py`, those collaborators are abstracted as parameters; where a claim
depends on what they compute, they are modelled from the specification and
marked `Modelled from the spec:` in their doc comment.
-/

set_option autoImplicit false

namespace PyMoresane

/-! ## Two-dimensional images for the convolution routine (`iuwt_toolbox.py`)

A square `n × n` image is a function `ZMod n → ZMod n → ℚ`; the group
structure of `ZMod n` gives the modular index arithmetic of the cyclic
convolution and of `np.fft.fftshift`. -/

/-- A square `n × n` image with rational entries, indices taken modulo `n`. -/
def Image2 (n : ℕ) : Type := ZMod n → ZMod n → ℚ

instance (n : ℕ) [NeZero n] : DecidableEq (Image2 n) := by
  unfold Image2; infer_instance

/-- Cyclic (circular) 2-D convolution:
`(f ⊛ g)(i,j) = ∑ₖ ∑ₗ f(k,l) · g(i−k, j−l)` with indices modulo `n`.
By the convolution theorem this is exactly `ifft2(fft2 g · fft2 f)` as
computed by the external FFT backend in `iuwt_toolbox.py` line 56. -/
def cyclicConv {n : ℕ} [NeZero n] (in1 in2 : Image2 n) : Image2 n :=
  fun i j => ∑ k : ZMod n, ∑ l : ZMod n, in1 k l * in2 (i - k) (j - l)

/-- The shift amount `n // 2` used by `np.fft.fftshift` on an axis of
length `n`, viewed in `ZMod n`. -/
def fftshiftHalf (n : ℕ) : ZMod n := ((n / 2 : ℕ) : ZMod n)

/-- `np.fft.fftshift` for a 2-D array: a cyclic roll by `n // 2` on both
axes, i.e. `out[i,j] = x[(i − n//2) mod n, (j − n//2) mod n]`. -/
def fftshift {n : ℕ} [NeZero n] (x : Image2 n) : Image2 n :=
  fun i j => x (i - fftshiftHalf n) (j - fftshiftHalf n)

/-- `fft_convolve(in1, in2, use_gpu=False, conv_mode="circular")` from
`iuwt_toolbox.py` lines 52-56:
`np.real(np.fft.fftshift(np.fft.ifft2(in2*np.fft.fft2(in1))))`, where `in2`
holds the Fourier transform of the PSF.  We represent the PSF by its spatial
image and the composite `ifft2 (fft2 psf · fft2 in1)` by the cyclic
convolution; the result is real, so `np.real` is the identity here.  No
padding is applied in this mode. -/
def fft_convolve {n : ℕ} [NeZero n] (in1 psf : Image2 n) : Image2 n :=
  fftshift (cyclicConv in1 psf)

/-- The Kronecker delta image with a single unit pixel at `(a, b)`. -/
def deltaImage {n : ℕ} (a b : ZMod n) : Image2 n :=
  fun i j => if i = a ∧ j = b then 1 else 0

/-- Convolving with a delta at `(a,b)` translates the image by `(a,b)`
(before the final `fftshift`). -/
lemma cyclicConv_delta {n : ℕ} [NeZero n] (in1 : Image2 n) (a b : ZMod n) :
    cyclicConv in1 (deltaImage a b) = fun i j => in1 (i - a) (j - b) := by
  funext i j
  show (∑ k : ZMod n, ∑ l : ZMod n,
      in1 k l * if i - k = a ∧ j - l = b then (1 : ℚ) else 0) = in1 (i - a) (j - b)
  have h1 : ∀ k l : ZMod n,
      (in1 k l * if i - k = a ∧ j - l = b then (1 : ℚ) else 0)
        = if k = i - a then (if l = j - b then in1 k l else 0) else 0 := by
    intro k l
    by_cases hk : k = i - a
    · by_cases hl : l = j - b
      · subst hk; subst hl
        have hca : i - (i - a) = a := sub_sub_cancel i a
        have hcb : j - (j - b) = b := sub_sub_cancel j b
        rw [if_pos ⟨hca, hcb⟩, mul_one, if_pos rfl, if_pos rfl]
      · have hcond : ¬(i - k = a ∧ j - l = b) := by
          rintro ⟨-, h2⟩
          exact hl (by rw [← h2, sub_sub_cancel])
        rw [if_neg hcond, mul_zero, if_pos hk, if_neg hl]
    · have hcond : ¬(i - k = a ∧ j - l = b) := by
        rintro ⟨h2, -⟩
        exact hk (by rw [← h2, sub_sub_cancel])
      rw [if_neg hcond, mul_zero, if_neg hk]
  calc (∑ k : ZMod n, ∑ l : ZMod n,
        in1 k l * if i - k = a ∧ j - l = b then (1 : ℚ) else 0)
      = ∑ k : ZMod n, ∑ l : ZMod n,
          (if k = i - a then (if l = j - b then in1 k l else 0) else 0) :=
        Finset.sum_congr rfl fun k _ => Finset.sum_congr rfl fun l _ => h1 k l
    _ = ∑ k : ZMod n, (if k = i - a then in1 k (j - b) else 0) := by
        refine Finset.sum_congr rfl fun k _ => ?_
        by_cases hk : k = i - a
        · simp [hk, Finset.sum_ite_eq']
        · simp [hk]
    _ = in1 (i - a) (j - b) := by simp [Finset.sum_ite_eq']

/-- The two half-shifts cancel when `n` is even. -/
lemma fftshiftHalf_add_self {n : ℕ} [NeZero n] (hn : 2 ∣ n) :
    fftshiftHalf n + fftshiftHalf n = 0 := by
  obtain ⟨m, rfl⟩ := hn
  have hdiv : 2 * m / 2 = m := by omega
  rw [fftshiftHalf, hdiv, ← Nat.cast_add]
  have hmm : m + m = 2 * m := by ring
  rw [hmm, ZMod.natCast_self]

/-- Key computation shared by the C7 theorems: circular `fft_convolve`
against a delta at `(a,a)` yields the image translated by `a + n//2`. -/
lemma fft_convolve_delta {n : ℕ} [NeZero n] (img : Image2 n) (a b : ZMod n) :
    fft_convolve img (deltaImage a b)
      = fun i j => img (i - fftshiftHalf n - a) (j - fftshiftHalf n - b) := by
  funext i j
  show cyclicConv img (deltaImage a b) (i - fftshiftHalf n) (j - fftshiftHalf n) = _
  rw [cyclicConv_delta]

/-- A concrete 2×2 image with four distinct entries, used as a refuting
input for C7. -/
def img2ex : Image2 2 := fun i j =>
  if i = 0 then (if j = 0 then 1 else 2) else (if j = 0 then 3 else 4)

/-- A concrete 4×4 image used as a C7 witness input. -/
def img4ex : Image2 4 := fun i j => (i.val : ℚ) * 4 + (j.val : ℚ)

/-- C7, counterexample.  The claim asserts that in circular mode convolving
any image with a δ at the origin (index `(0,0)`) returns the image
unchanged.  On the code (`iuwt_toolbox.py` line 56) the result of convolving
with `δ₍₀,₀₎` is the `fftshift` of the image, which swaps quadrants: for the
2×2 image `img2ex` with entries `1,2,3,4` the entry at `(0,0)` of the result
is `4 ≠ 1`, so the claim is false. -/
theorem fft_convolve_delta_origin_not_identity :
    fft_convolve img2ex (deltaImage (0 : ZMod 2) 0) ≠ img2ex := by
  intro h
  rw [fft_convolve_delta] at h
  have h00 : img2ex ((0 : ZMod 2) - fftshiftHalf 2 - 0) (0 - fftshiftHalf 2 - 0)
      = img2ex 0 0 := congrFun (congrFun h 0) 0
  have hidx : (0 : ZMod 2) - fftshiftHalf 2 - 0 = 1 := by decide
  rw [hidx] at h00
  have h4 : img2ex 1 1 = 4 := by decide
  have h1 : img2ex 0 0 = 1 := by decide
  rw [h4, h1] at h00
  norm_num at h00

/-- C7, amended.  For circular mode `fft_convolve` applies no padding and
returns the `fftshift` of the inverse FFT of the Fourier-domain product
(embedded here as `fftshift (cyclicConv in1 psf)`): consequently, for every
image on an even-sided grid, convolving with a δ at the image centre
`(n/2, n/2)` — not at the origin — returns the image unchanged, the
`fftshift` compensating the centre offset of the delta. -/
theorem fft_convolve_delta_centre_identity {n : ℕ} [NeZero n] (hn : 2 ∣ n)
    (img : Image2 n) :
    fft_convolve img (deltaImage (fftshiftHalf n) (fftshiftHalf n)) = img := by
  rw [fft_convolve_delta]
  funext i j
  have hcancel : ∀ i : ZMod n, i - fftshiftHalf n - fftshiftHalf n = i := by
    intro i
    rw [sub_sub, fftshiftHalf_add_self hn, sub_zero]
  rw [hcancel i, hcancel j]

/-- Witness for C7's amended theorem at the concrete even size `n = 4` and
the concrete image `img4ex`. -/
theorem fft_convolve_delta_centre_identity_witness :
    fft_convolve img4ex (deltaImage (fftshiftHalf 4) (fftshiftHalf 4)) = img4ex :=
  fft_convolve_delta_centre_identity (by decide) img4ex

/-! ## The conjugate-gradient minor loop (`main.py` lines 380-483)

The loop state is over an abstract finite pixel index `κ` (the subregion
grid).  The operator `A` — convolve with the PSF, decompose, mask,
recompose, built from the missing modules `pymoresane.iuwt_convolution` and
`pymoresane.iuwt` — and the SNR statistic of `main.py` lines 428-439 — the
composition `tools.snr_ratio(extracted_sources, model_sources)` as a
function of the candidate solution `xn` — are parameters of the embedding:
the claims settled here (C2, C6) are about the driver's control flow in
`main.py` and hold for every such collaborator. -/

/-- `np.dot(u.reshape(1,-1), v.reshape(-1,1))[0,0]`: the inner product of
two flattened arrays. -/
def dotQ {κ : Type} [Fintype κ] (u v : κ → ℚ) : ℚ := ∑ i : κ, u i * v i

/-- `xn[xn<0] = 0` (`main.py` line 411): clip negative entries to zero. -/
def posClip {κ : Type} (v : κ → ℚ) : κ → ℚ := fun i => if v i < 0 then 0 else v i

/-- State of the minor conjugate-gradient loop: the solution `x`, residual
`r`, direction `p`, the iteration counter `minor_loop_niter`, the two SNR
registers and the enclosing `min_scale` variable. -/
structure CGState (κ : Type) where
  x : κ → ℚ
  r : κ → ℚ
  p : κ → ℚ
  niter : ℕ
  snrLast : ℚ
  snrCur : ℚ
  minScale : ℕ

/-- External collaborators of the minor loop.  `Aop` models the composite
`recompose(mask * decompose(fft_convolve(p, psf)))` of `main.py` lines
395-399 (the modules computing it are not in the source tree).  `snr`
models `tools.snr_ratio(extracted_sources, model_sources)` of lines
428-439 as a function of the candidate solution `xn`, returning the dB
value.  `posEnforce` is the `enforce_positivity` flag. -/
structure CGParams (κ : Type) where
  Aop : (κ → ℚ) → (κ → ℚ)
  snr : (κ → ℚ) → ℚ
  posEnforce : Bool

/-- `alpha = (r·r)/(p·Ap)` (`main.py` lines 401-403). -/
def cgAlpha {κ : Type} [Fintype κ] (P : CGParams κ) (st : CGState κ) : ℚ :=
  dotQ st.r st.r / dotQ st.p (P.Aop st.p)

/-- `xn = x + alpha*p` before the positivity correction (line 405). -/
def cgXn0 {κ : Type} [Fintype κ] (P : CGParams κ) (st : CGState κ) : κ → ℚ :=
  fun i => st.x i + cgAlpha P st * st.p i

/-- The guard `(np.min(xn)<0) & (enforce_positivity)` of line 409. -/
def cgClipCond {κ : Type} [Fintype κ] (P : CGParams κ) (st : CGState κ) : Prop :=
  P.posEnforce = true ∧ ∃ i, cgXn0 P st i < 0

instance {κ : Type} [Fintype κ] (P : CGParams κ) (st : CGState κ) :
    Decidable (cgClipCond P st) := by
  unfold cgClipCond; infer_instance

/-- The candidate solution after the optional positivity clip (lines
405-411). -/
def cgXn {κ : Type} [Fintype κ] (P : CGParams κ) (st : CGState κ) : κ → ℚ :=
  if cgClipCond P st then posClip (cgXn0 P st) else cgXn0 P st

/-- The direction used for the residual update: `p = (xn-x)/alpha` when the
clip fired (line 412), the incoming `p` otherwise. -/
def cgP1 {κ : Type} [Fintype κ] (P : CGParams κ) (st : CGState κ) : κ → ℚ :=
  if cgClipCond P st then (fun i => (cgXn P st i - st.x i) / cgAlpha P st) else st.p

/-- `Ap`, recomputed after a positivity clip (lines 395-399 and 414-418). -/
def cgAp1 {κ : Type} [Fintype κ] (P : CGParams κ) (st : CGState κ) : κ → ℚ :=
  P.Aop (cgP1 P st)

/-- `rn = r - alpha*Ap` (line 420). -/
def cgRn {κ : Type} [Fintype κ] (P : CGParams κ) (st : CGState κ) : κ → ℚ :=
  fun i => st.r i - cgAlpha P st * cgAp1 P st i

/-- `beta = (rn·rn)/(r·r)` (lines 422-424). -/
def cgBeta {κ : Type} [Fintype κ] (P : CGParams κ) (st : CGState κ) : ℚ :=
  dotQ (cgRn P st) (cgRn P st) / dotQ st.r st.r

/-- `p = rn + beta*p` (line 426). -/
def cgPnext {κ : Type} [Fintype κ] (P : CGParams κ) (st : CGState κ) : κ → ℚ :=
  fun i => cgRn P st i + cgBeta P st * cgP1 P st i

/-- How the minor loop exits: false detection on the first iteration (line
448), model converged above 40 dB (line 454), SNR decreased with the model
still accepted (line 461) or rejected (line 466). -/
inductive CGExit : Type where
  | falseDetection : CGExit
  | converged : CGExit
  | acceptDecrease : CGExit
  | rejectDecrease : CGExit
deriving DecidableEq

/-- One iteration of the minor loop body (`main.py` lines 393-472).
Returns `(some e, st)` when the iteration breaks out of the loop with exit
`e` and `(none, st)` when it falls through to the next iteration.  The
flow-control mirrors lines 448-472: note that in the `acceptDecrease` and
`rejectDecrease` branches `x` is not overwritten with `xn` (the `x = xn`
assignment of line 472 is only reached by the fall-through path). -/
def cgStep {κ : Type} [Fintype κ] (P : CGParams κ) (st : CGState κ) :
    Option CGExit × CGState κ :=
  let xn := cgXn P st
  let rn := cgRn P st
  let pn := cgPnext P st
  let snrC := P.snr xn
  let k := st.niter + 1
  let base : CGState κ :=
    { st with p := pn, niter := k, snrLast := st.snrCur, snrCur := snrC }
  if k = 1 ∧ 40 < snrC then
    (some CGExit.falseDetection, { base with minScale := st.minScale + 1 })
  else if 40 < snrC then
    (some CGExit.converged, { base with x := xn, minScale := 0 })
  else if 2 < k ∧ snrC ≤ st.snrCur then
    if 21/2 < snrC then
      (some CGExit.acceptDecrease, { base with minScale := 0 })
    else
      (some CGExit.rejectDecrease, { base with minScale := st.minScale + 1 })
  else
    (none, { base with x := xn, r := rn })

/-- The minor `while` loop (line 393), with the fuel equal to the remaining
iteration budget `minor_loop_miter - minor_loop_niter`. -/
def cgLoop {κ : Type} [Fintype κ] (P : CGParams κ) :
    ℕ → CGState κ → CGState κ × Option CGExit
  | 0, st => (st, none)
  | fuel + 1, st =>
    match cgStep P st with
    | (some e, st1) => (st1, some e)
    | (none, st1) => cgLoop P fuel st1

/-- The state entering the minor loop (lines 380-387): `x = 0`,
`r = p = recomposed_sources`, counters and SNR registers zeroed,
`min_scale` inherited from the enclosing scale loop. -/
def cgInit {κ : Type} (b : κ → ℚ) (ms : ℕ) : CGState κ :=
  { x := fun _ => 0, r := b, p := b, niter := 0, snrLast := 0, snrCur := 0,
    minScale := ms }

/-- A full run of the minor loop from `cgInit`, including the post-loop
check of lines 476-480 (`minor_loop_niter == minor_loop_miter` and
`snr_current > 10.5` resets `min_scale` to `0`). -/
def cgRun {κ : Type} [Fintype κ] (P : CGParams κ) (miter : ℕ) (b : κ → ℚ)
    (ms : ℕ) : CGState κ × Option CGExit :=
  let res := cgLoop P miter (cgInit b ms)
  if res.1.niter = miter ∧ 21/2 < res.1.snrCur then
    ({ res.1 with minScale := 0 }, res.2)
  else res

/-- Under `enforce_positivity` every candidate `xn` is pointwise
non-negative: either no entry was negative, or the negative entries were
clipped to zero. -/
lemma cgXn_nonneg {κ : Type} [Fintype κ] (P : CGParams κ) (st : CGState κ)
    (hP : P.posEnforce = true) : ∀ i, 0 ≤ cgXn P st i := by
  intro i
  unfold cgXn
  by_cases hc : cgClipCond P st
  · rw [if_pos hc]
    unfold posClip
    by_cases h0 : cgXn0 P st i < 0
    · rw [if_pos h0]
    · rw [if_neg h0]
      exact le_of_not_lt h0
  · rw [if_neg hc]
    have hno : ¬ ∃ j, cgXn0 P st j < 0 := fun h => hc ⟨hP, h⟩
    exact le_of_not_lt fun hlt => hno ⟨i, hlt⟩

/-- One minor-loop iteration preserves pointwise non-negativity of `x`
under `enforce_positivity`. -/
lemma cgStep_x_nonneg {κ : Type} [Fintype κ] (P : CGParams κ) (st : CGState κ)
    (hP : P.posEnforce = true) (hx : ∀ i, 0 ≤ st.x i) :
    ∀ i, 0 ≤ (cgStep P st).2.x i := by
  intro i
  simp only [cgStep]
  split_ifs with h1 h2 h3 h4
  · exact hx i
  · exact cgXn_nonneg P st hP i
  · exact hx i
  · exact hx i
  · exact cgXn_nonneg P st hP i

/-- The minor loop preserves pointwise non-negativity of `x` under
`enforce_positivity`. -/
lemma cgLoop_x_nonneg {κ : Type} [Fintype κ] (P : CGParams κ)
    (hP : P.posEnforce = true) :
    ∀ (fuel : ℕ) (st : CGState κ), (∀ i, 0 ≤ st.x i) →
      ∀ i, 0 ≤ (cgLoop P fuel st).1.x i := by
  intro fuel
  induction fuel with
  | zero => intro st hx i; exact hx i
  | succ n ih =>
    intro st hx i
    rcases hstep : cgStep P st with ⟨o, st1⟩
    have hst1 : ∀ j, 0 ≤ st1.x j := by
      intro j
      have := cgStep_x_nonneg P st hP hx j
      rw [hstep] at this
      exact this
    cases o with
    | none => simpa [cgLoop, hstep] using ih st1 hst1 i
    | some e => simpa [cgLoop, hstep] using hst1 i

/-- The solution returned by a full minor-loop run is pointwise
non-negative under `enforce_positivity`. -/
lemma cgRun_x_nonneg {κ : Type} [Fintype κ] (P : CGParams κ)
    (hP : P.posEnforce = true) (miter : ℕ) (b : κ → ℚ) (ms : ℕ) :
    ∀ i, 0 ≤ (cgRun P miter b ms).1.x i := by
  intro i
  have hbase : ∀ j, 0 ≤ (cgLoop P miter (cgInit b ms)).1.x j :=
    cgLoop_x_nonneg P hP miter (cgInit b ms) (fun _ => le_refl 0)
  simp only [cgRun]
  split_ifs with h
  · exact hbase i
  · exact hbase i

/-- A fall-through iteration always leaves `snrCur ≤ 40`: the loop would
have exited at line 454 otherwise.  Together with `cgInit` (whose `snrCur`
is `0`) this shows every state reached inside a run satisfies
`snrCur ≤ 40`, justifying the corresponding hypothesis of the C2 theorem. -/
lemma cgStep_continue_snr_le_40 {κ : Type} [Fintype κ] (P : CGParams κ)
    (st st1 : CGState κ) (h : cgStep P st = (none, st1)) : st1.snrCur ≤ 40 := by
  simp only [cgStep] at h
  split_ifs at h with h1 h2 h3 h4
  · exact absurd h (by simp)
  · exact absurd h (by simp)
  · exact absurd h (by simp)
  · exact absurd h (by simp)
  · injection h with hfst hsnd
    rw [← hsnd]
    exact le_of_not_lt h2

/-- C2.  In the minor CG loop, when the (incremented) iteration count
exceeds 2, the freshly computed SNR does not exceed the previous one, and
it is still above 10.5 dB, the loop exits through the `acceptDecrease`
branch of `main.py` lines 460-465: `min_scale` is reset to 0 and `x` is
left at its pre-update value (it is not overwritten with `xn`), so the
accepted model delta is the `x` from before the final CG update.  The
hypothesis `st.snrCur ≤ 40` is the loop invariant established by
`cgStep_continue_snr_le_40` (a previous iteration with SNR above 40 would
already have exited), which rules out the earlier `converged` branch. -/
theorem minor_loop_snr_decrease_accepts_pre_update_x
    {κ : Type} [Fintype κ] (P : CGParams κ) (st : CGState κ)
    (hk : 2 < st.niter + 1)
    (hdec : P.snr (cgXn P st) ≤ st.snrCur)
    (habove : 21/2 < P.snr (cgXn P st))
    (hinv : st.snrCur ≤ 40) :
    cgStep P st = (some CGExit.acceptDecrease,
        { st with p := cgPnext P st, niter := st.niter + 1,
                  snrLast := st.snrCur, snrCur := P.snr (cgXn P st),
                  minScale := 0 })
      ∧ (cgStep P st).2.x = st.x ∧ (cgStep P st).2.minScale = 0 := by
  have hk1 : ¬(st.niter + 1 = 1 ∧ 40 < P.snr (cgXn P st)) := by
    rintro ⟨h1, -⟩; omega
  have h40 : ¬(40 < P.snr (cgXn P st)) := not_lt.mpr (le_trans hdec hinv)
  have hcond : 2 < st.niter + 1 ∧ P.snr (cgXn P st) ≤ st.snrCur := ⟨hk, hdec⟩
  refine ⟨?_, ?_, ?_⟩ <;>
    simp only [cgStep, if_neg hk1, if_neg h40, if_pos hcond, if_pos habove]

/-- Concrete minor-loop collaborators for the C2 witness: identity
operator, constant 20 dB SNR, positivity off. -/
def cgPex : CGParams (Fin 1) :=
  { Aop := fun v => v, snr := fun _ => 20, posEnforce := false }

/-- Concrete minor-loop state for the C2 witness: third iteration coming
up, previous SNR 30 dB. -/
def cgStex : CGState (Fin 1) :=
  { x := fun _ => 5, r := fun _ => 1, p := fun _ => 1, niter := 2,
    snrLast := 25, snrCur := 30, minScale := 3 }

/-- Witness for C2 at a concrete state: the step exits with `x` unchanged
and `min_scale = 0`. -/
theorem minor_loop_snr_decrease_witness :
    (cgStep cgPex cgStex).2.x = cgStex.x ∧ (cgStep cgPex cgStex).2.minScale = 0 :=
  ⟨(minor_loop_snr_decrease_accepts_pre_update_x cgPex cgStex (by norm_num [cgStex])
      (by norm_num [cgPex, cgStex]) (by norm_num [cgPex]) (by norm_num [cgStex])).2.1,
   (minor_loop_snr_decrease_accepts_pre_update_x cgPex cgStex (by norm_num [cgStex])
      (by norm_num [cgPex, cgStex]) (by norm_num [cgPex]) (by norm_num [cgStex])).2.2⟩

/-! ## The major loop driver (`main.py` lines 250-257, 281-282, 494-536)

The full image grid is an abstract finite index `ι` and the central
subregion an abstract finite index `κ` injected into `ι` by `emb`
(modelling `subregion_slice`): `v ∘ emb` is `v[subregion_slice]`, and
`extendZero emb x` is the image that writes `x` into the slice and is zero
elsewhere, so that `model[subregion_slice] += loop_gain*x` becomes a
pointwise addition. -/

/-- Zero-extension of a subregion image to the full grid along `emb`. -/
def extendZero {ι κ : Type} [Fintype κ] [DecidableEq ι] (emb : κ → ι)
    (x : κ → ℚ) : ι → ℚ :=
  fun i => ∑ k : κ, if emb k = i then x k else 0

/-- External collaborators of the major loop.  `dirtyData` is
`self.dirty_data`; `convPsf` models `conv.fft_convolve(·, psf_data_fft,
conv_device, conv_mode)` of `main.py` lines 500 and 514 (the module
`pymoresane.iuwt_convolution` is not in the source tree); `emb` is the
injection of the central subregion into the grid; `stdev` models `np.std`
on a subregion image (an external numpy primitive whose value involves a
square root; concrete honest rational instances are supplied at sizes 1
and 2, where the population standard deviation is rational). -/
structure DriverCtx (ι κ : Type) where
  dirtyData : ι → ℚ
  convPsf : (ι → ℚ) → ι → ℚ
  emb : κ → ι
  stdev : (κ → ℚ) → ℚ

/-- `np.std` of a one-pixel array is `0`. -/
def oneStd : (Fin 1 → ℚ) → ℚ := fun _ => 0

/-- `np.std` of a two-pixel array `[a, b]` is `|a - b| / 2`, written
branch-wise; `twoStd_eq_abs` certifies the closed form. -/
def twoStd : (Fin 2 → ℚ) → ℚ := fun v =>
  if v 0 - v 1 < 0 then (v 1 - v 0) / 2 else (v 0 - v 1) / 2

/-- `twoStd` is the population standard deviation of a two-pixel array. -/
lemma twoStd_eq_abs (v : Fin 2 → ℚ) : twoStd v = |v 0 - v 1| / 2 := by
  rw [twoStd]
  by_cases h : v 0 - v 1 < 0
  · rw [if_pos h, abs_of_neg h]; ring
  · rw [if_neg h, abs_of_nonneg (le_of_not_lt h)]

/-- Index arithmetic helper for two-pixel computations. -/
lemma fin2_one_ne_zero : (1 : Fin 2) ≠ 0 := by decide

/-- Index arithmetic helper for two-pixel computations. -/
lemma fin2_zero_ne_one : (0 : Fin 2) ≠ 1 := by decide

/-- State of the major loop (`main.py` lines 250-257): the accumulated
local `model`, the local `residual`, `dirty_subregion`, the three standard
deviation registers, the current `max_coeff`, and `major_loop_niter`. -/
structure MajorState (ι κ : Type) where
  model : ι → ℚ
  residual : ι → ℚ
  dirtySub : κ → ℚ
  stdCurrent : ℚ
  stdLast : ℚ
  stdRatio : ℚ
  maxCoeff : ℚ
  majorNiter : ℕ

/-- `model[subregion_slice] += loop_gain*x` (`main.py` line 498). -/
def accreteModel1 {ι κ : Type} [Fintype κ] [DecidableEq ι] (ctx : DriverCtx ι κ)
    (loopGain : ℚ) (x : κ → ℚ) (s : MajorState ι κ) : ι → ℚ :=
  fun i => s.model i + loopGain * extendZero ctx.emb x i

/-- `residual = self.dirty_data - conv.fft_convolve(model, psf_data_fft, ...)`
(`main.py` lines 500 and 514) as a function of the model. -/
def residualOf {ι κ : Type} (ctx : DriverCtx ι κ) (m : ι → ℚ) : ι → ℚ :=
  fun i => ctx.dirtyData i - ctx.convPsf m i

/-- The fresh `std_current = np.std(residual[subregion_slice])` computed at
`main.py` line 505 inside a major iteration. -/
def accreteStdCur {ι κ : Type} [Fintype κ] [DecidableEq ι] (ctx : DriverCtx ι κ)
    (loopGain : ℚ) (x : κ → ℚ) (s : MajorState ι κ) : ℚ :=
  ctx.stdev fun k => residualOf ctx (accreteModel1 ctx loopGain x s) (ctx.emb k)

/-- `std_ratio = (std_last - std_current)/std_last` (`main.py` line 506),
where `std_last` is the previous iteration's `std_current`. -/
def accreteStdRatio {ι κ : Type} [Fintype κ] [DecidableEq ι] (ctx : DriverCtx ι κ)
    (loopGain : ℚ) (x : κ → ℚ) (s : MajorState ι κ) : ℚ :=
  (s.stdCurrent - accreteStdCur ctx loopGain x s) / s.stdCurrent

/-- One guarded accretion pass of the major loop (`main.py` lines 494-521):
add `loop_gain*x` into the model's subregion, recompute the residual and
the standard-deviation registers, revert the delta if the residual
worsened (`std_ratio < 0`, lines 511-514), substitute the residual's
subregion for the dirty subregion, and count the iteration. -/
def accrete {ι κ : Type} [Fintype κ] [DecidableEq ι] (ctx : DriverCtx ι κ)
    (loopGain : ℚ) (x : κ → ℚ) (s : MajorState ι κ) : MajorState ι κ :=
  let model1 := accreteModel1 ctx loopGain x s
  let residual1 := residualOf ctx model1
  if accreteStdRatio ctx loopGain x s < 0 then
    let model2 := fun i => model1 i - loopGain * extendZero ctx.emb x i
    let residual2 := residualOf ctx model2
    { s with model := model2, residual := residual2,
             dirtySub := fun k => residual2 (ctx.emb k),
             stdCurrent := accreteStdCur ctx loopGain x s,
             stdLast := s.stdCurrent,
             stdRatio := accreteStdRatio ctx loopGain x s,
             majorNiter := s.majorNiter + 1 }
  else
    { s with model := model1, residual := residual1,
             dirtySub := fun k => residual1 (ctx.emb k),
             stdCurrent := accreteStdCur ctx loopGain x s,
             stdLast := s.stdCurrent,
             stdRatio := accreteStdRatio ctx loopGain x s,
             majorNiter := s.majorNiter + 1 }

/-- `np.max` of a subregion image. -/
def maxQ {κ : Type} [Fintype κ] [Nonempty κ] (v : κ → ℚ) : ℚ :=
  Finset.univ.sup' Finset.univ_nonempty v

/-- The guard of the major `while` loop (`main.py` lines 281-282):
`(major_loop_niter < major_loop_miter) & (max_coeff > 0) &
(std_ratio > accuracy) & (np.max(dirty_subregion) > flux_threshold)`. -/
def majorCond {ι κ : Type} [Fintype κ] [Nonempty κ] (miter : ℕ)
    (accuracy fluxThreshold : ℚ) (s : MajorState ι κ) : Prop :=
  s.majorNiter < miter ∧ 0 < s.maxCoeff ∧ accuracy < s.stdRatio ∧
    fluxThreshold < maxQ s.dirtySub

instance {ι κ : Type} [Fintype κ] [Nonempty κ] (miter : ℕ)
    (accuracy fluxThreshold : ℚ) (s : MajorState ι κ) :
    Decidable (majorCond miter accuracy fluxThreshold s) := by
  unfold majorCond; infer_instance

/-- The major `while` loop with an abstract body (the body of `main.py`
lines 284-529 — scale selection, extraction and the minor loop feed into
`accrete`; claims C3 and C6 are settled uniformly in the body or with the
body instantiated). -/
def majorLoop {ι κ : Type} [Fintype κ] [Nonempty κ]
    (body : MajorState ι κ → MajorState ι κ) (miter : ℕ)
    (accuracy fluxThreshold : ℚ) : ℕ → MajorState ι κ → MajorState ι κ
  | 0, s => s
  | fuel + 1, s =>
    if majorCond miter accuracy fluxThreshold s then
      majorLoop body miter accuracy fluxThreshold fuel (body s)
    else s

/-- The driver state entering the major loop (`main.py` lines 250-257):
`major_loop_niter = 0`, `max_coeff = 1`, `model` zeros,
`std_current, std_last, std_ratio = 1000, 1, 1`, and `dirty_subregion`
the dirty image's central subregion.  The local `residual` variable has no
value before the first accretion in the code; it is initialised here to
the dirty image and is not read before being written. -/
def initMajorState {ι κ : Type} (ctx : DriverCtx ι κ) : MajorState ι κ :=
  { model := fun _ => 0, residual := ctx.dirtyData,
    dirtySub := fun k => ctx.dirtyData (ctx.emb k),
    stdCurrent := 1000, stdLast := 1, stdRatio := 1, maxCoeff := 1,
    majorNiter := 0 }

/-- When the loop guard fails the major loop returns its state unchanged,
for any fuel. -/
lemma majorLoop_exit {ι κ : Type} [Fintype κ] [Nonempty κ]
    (body : MajorState ι κ → MajorState ι κ) (miter : ℕ)
    (accuracy fluxThreshold : ℚ) (fuel : ℕ) (s : MajorState ι κ)
    (h : ¬ majorCond miter accuracy fluxThreshold s) :
    majorLoop body miter accuracy fluxThreshold fuel s = s := by
  cases fuel with
  | zero => rfl
  | succ n =>
    simp only [majorLoop]
    rw [if_neg h]

/-- A major-loop body whose accreted solution is produced by the minor CG
loop: `accrete` applied to the `x` returned by `cgRun`.  The pipeline
computing the recomposed sources `b` and the entering `min_scale` from the
state (decomposition, thresholding, extraction — modules not in the source
tree) is abstracted as `bFun` and `msFun`. -/
def moresanePosBody {ι κ : Type} [Fintype κ] [DecidableEq ι]
    (ctx : DriverCtx ι κ) (Pfun : MajorState ι κ → CGParams κ) (g : ℚ)
    (miterMinor : ℕ) (bFun : MajorState ι κ → κ → ℚ)
    (msFun : MajorState ι κ → ℕ) (s : MajorState ι κ) : MajorState ι κ :=
  accrete ctx g (cgRun (Pfun s) miterMinor (bFun s) (msFun s)).1.x s

/-- One-pixel driver context for witnesses: dirty value 3, identity
convolution (a δ PSF), identity subregion embedding, honest one-pixel
`np.std`. -/
def ctxOnePix : DriverCtx (Fin 1) (Fin 1) :=
  { dirtyData := fun _ => 3, convPsf := fun m => m, emb := id, stdev := oneStd }

/-- Two-pixel driver context for witnesses and counterexamples: dirty
image `(1, 0)`, identity convolution, identity subregion embedding,
honest two-pixel `np.std`. -/
def ctxTwoPix : DriverCtx (Fin 2) (Fin 2) :=
  { dirtyData := fun i => if i = 0 then 1 else 0, convPsf := fun m => m,
    emb := id, stdev := twoStd }

/-- One-pixel driver context with an all-zero dirty image, for C3. -/
def ctxNull : DriverCtx (Fin 1) (Fin 1) :=
  { dirtyData := fun _ => 0, convPsf := fun m => m, emb := id, stdev := oneStd }

/-- A two-pixel major-loop state with zero model and a chosen previous
`std_current`. -/
def sTwoPix (sc : ℚ) : MajorState (Fin 2) (Fin 2) :=
  { model := fun _ => 0, residual := ctxTwoPix.dirtyData,
    dirtySub := fun k => ctxTwoPix.dirtyData k,
    stdCurrent := sc, stdLast := 1, stdRatio := 1, maxCoeff := 1,
    majorNiter := 0 }

/-- A two-pixel solution with a single spike of amplitude `a` at pixel 0. -/
def xSpike (a : ℚ) : Fin 2 → ℚ := fun i => if i = 0 then a else 0

/-- C1.  At the end of every successful (non-reverted) major iteration the
local residual equals the dirty image minus the convolution of the
accumulated local model with the PSF: `main.py` line 500 computes exactly
`residual = self.dirty_data - conv.fft_convolve(model, psf_data_fft, ...)`
from the freshly accreted model (in the embedding's exact rational
arithmetic; the specification allows float tolerance). -/
theorem residual_identity_after_major_iteration {ι κ : Type} [Fintype κ]
    [DecidableEq ι] (ctx : DriverCtx ι κ) (loopGain : ℚ) (x : κ → ℚ)
    (s : MajorState ι κ) (h : 0 ≤ accreteStdRatio ctx loopGain x s) :
    (accrete ctx loopGain x s).residual
      = fun i => ctx.dirtyData i
          - ctx.convPsf (accrete ctx loopGain x s).model i := by
  simp only [accrete]
  rw [if_neg (not_lt.mpr h)]
  rfl

/-- Witness for C1 at the one-pixel context. -/
theorem residual_identity_witness :
    (accrete ctxOnePix (1/10) (fun _ => 1) (initMajorState ctxOnePix)).residual
      = fun i => ctxOnePix.dirtyData i
          - ctxOnePix.convPsf
              (accrete ctxOnePix (1/10) (fun _ => 1) (initMajorState ctxOnePix)).model i :=
  residual_identity_after_major_iteration ctxOnePix (1/10) (fun _ => 1)
    (initMajorState ctxOnePix)
    (by norm_num [accreteStdRatio, accreteStdCur, residualOf, accreteModel1,
      ctxOnePix, oneStd, initMajorState])

/-- C4.  When a major iteration worsens the residual (`std_ratio < 0`),
the model delta is reverted (`main.py` line 513 subtracts exactly the
`loop_gain*x` added at line 498), so the model after the iteration equals
the model before it. -/
theorem revert_restores_model {ι κ : Type} [Fintype κ] [DecidableEq ι]
    (ctx : DriverCtx ι κ) (loopGain : ℚ) (x : κ → ℚ) (s : MajorState ι κ)
    (h : accreteStdRatio ctx loopGain x s < 0) :
    (accrete ctx loopGain x s).model = s.model := by
  simp only [accrete]
  rw [if_pos h]
  funext i
  show accreteModel1 ctx loopGain x s i - loopGain * extendZero ctx.emb x i
      = s.model i
  simp only [accreteModel1]
  ring

/-- Witness for C4: a two-pixel overshooting step (`loop_gain = 1`,
spike of amplitude 2 against a dirty value 1) worsens the standard
deviation and is reverted, leaving the model unchanged. -/
theorem revert_restores_model_witness :
    (accrete ctxTwoPix 1 (xSpike 2) (sTwoPix (3/10))).model
      = (sTwoPix (3/10)).model :=
  revert_restores_model ctxTwoPix 1 (xSpike 2) (sTwoPix (3/10))
    (by norm_num [accreteStdRatio, accreteStdCur, residualOf, accreteModel1,
      extendZero, ctxTwoPix, sTwoPix, xSpike, twoStd, Fin.sum_univ_two,
      fin2_one_ne_zero, fin2_zero_ne_one])

/-- C9, counterexample.  The claim asserts the model delta of one major
iteration with loop gain `g` always equals `g` times the delta with loop
gain 1.  With the honest two-pixel `np.std`, dirty `(1,0)`, previous
`std_current = 9/20`, and solution spike `x = (2,0)`: the gain-1 run
overshoots (`std` rises from `9/20` to `1/2`) and is reverted, delta `0`,
while the gain-`1/10` run improves the residual and is accepted, delta
`(1/5, 0) ≠ (1/10)·0`.  The claim fails because the revert decision of
`main.py` line 511 depends on the gain. -/
theorem loop_gain_law_counterexample :
    ¬ ((accrete ctxTwoPix (1/10) (xSpike 2) (sTwoPix (9/20))).model
        = fun i => (sTwoPix (9/20)).model i
            + (1/10) * ((accrete ctxTwoPix 1 (xSpike 2) (sTwoPix (9/20))).model i
                - (sTwoPix (9/20)).model i)) := by
  intro hcl
  have hg : ¬ accreteStdRatio ctxTwoPix (1/10) (xSpike 2) (sTwoPix (9/20)) < 0 := by
    norm_num [accreteStdRatio, accreteStdCur, residualOf, accreteModel1,
      extendZero, ctxTwoPix, sTwoPix, xSpike, twoStd, Fin.sum_univ_two,
      fin2_one_ne_zero, fin2_zero_ne_one]
  have h1 : accreteStdRatio ctxTwoPix 1 (xSpike 2) (sTwoPix (9/20)) < 0 := by
    norm_num [accreteStdRatio, accreteStdCur, residualOf, accreteModel1,
      extendZero, ctxTwoPix, sTwoPix, xSpike, twoStd, Fin.sum_univ_two,
      fin2_one_ne_zero, fin2_zero_ne_one]
  have h0 := congrFun hcl 0
  simp only [accrete, if_neg hg, if_pos h1] at h0
  simp only [accreteModel1, extendZero, sTwoPix, xSpike, ctxTwoPix,
    Fin.sum_univ_two] at h0
  norm_num [fin2_one_ne_zero, fin2_zero_ne_one] at h0

/-- C9, amended.  Every element written to the model in a major iteration
is scaled by `loop_gain` (`main.py` line 498 adds `loop_gain*x`, line 513
subtracts it again on revert), so whenever the gain-`g` iteration and the
gain-1 iteration from the same state take the same accept/revert branch,
the gain-`g` model delta equals `g` times the gain-1 delta; the two
branches can differ (see the counterexample), in which case the law
fails. -/
theorem loop_gain_scales_model_delta_same_branch {ι κ : Type} [Fintype κ]
    [DecidableEq ι] (ctx : DriverCtx ι κ) (g : ℚ) (x : κ → ℚ)
    (s : MajorState ι κ)
    (h : accreteStdRatio ctx g x s < 0 ↔ accreteStdRatio ctx 1 x s < 0) :
    (accrete ctx g x s).model
      = fun i => s.model i + g * ((accrete ctx 1 x s).model i - s.model i) := by
  by_cases hrev : accreteStdRatio ctx 1 x s < 0
  · have hg : accreteStdRatio ctx g x s < 0 := h.mpr hrev
    simp only [accrete]
    rw [if_pos hg, if_pos hrev]
    funext i
    show accreteModel1 ctx g x s i - g * extendZero ctx.emb x i
        = s.model i
          + g * ((accreteModel1 ctx 1 x s i - 1 * extendZero ctx.emb x i)
              - s.model i)
    simp only [accreteModel1]
    ring
  · have hg : ¬ accreteStdRatio ctx g x s < 0 := fun hh => hrev (h.mp hh)
    simp only [accrete]
    rw [if_neg hg, if_neg hrev]
    funext i
    show accreteModel1 ctx g x s i
        = s.model i + g * (accreteModel1 ctx 1 x s i - s.model i)
    simp only [accreteModel1]
    ring

/-- Witness for C9's amended theorem: with spike amplitude 1 both the
gain-1 and the gain-`1/10` runs improve the residual and accept, and the
deltas are proportional. -/
theorem loop_gain_scaling_witness :
    (accrete ctxTwoPix (1/10) (xSpike 1) (sTwoPix (3/5))).model
      = fun i => (sTwoPix (3/5)).model i
          + (1/10) * ((accrete ctxTwoPix 1 (xSpike 1) (sTwoPix (3/5))).model i
              - (sTwoPix (3/5)).model i) :=
  loop_gain_scales_model_delta_same_branch ctxTwoPix (1/10) (xSpike 1)
    (sTwoPix (3/5))
    (by constructor <;> intro h <;>
      [skip; skip] <;>
      exact absurd h (by norm_num [accreteStdRatio, accreteStdCur, residualOf,
        accreteModel1, extendZero, ctxTwoPix, sTwoPix, xSpike, twoStd,
        Fin.sum_univ_two, fin2_one_ne_zero, fin2_zero_ne_one]))

/-- C3, counterexample.  The claim asserts that on an all-zero dirty image
the driver performs exactly one major iteration and ends with
`max_coeff = 0`.  With the default `flux_threshold = 0` the loop guard
`np.max(dirty_subregion) > flux_threshold` of `main.py` line 282 is
already false (`0 > 0`), so the loop body never runs: the driver performs
zero major iterations and `max_coeff` keeps its initial value 1 (the model
does remain all zeros). -/
theorem null_input_claim_counterexample :
    (majorLoop (fun s => s) 100 (1/1000000) 0 100 (initMajorState ctxNull)).majorNiter = 0
      ∧ (majorLoop (fun s => s) 100 (1/1000000) 0 100 (initMajorState ctxNull)).maxCoeff = 1
      ∧ (majorLoop (fun s => s) 100 (1/1000000) 0 100 (initMajorState ctxNull)).model
          = fun _ => 0 := by
  have hmax : maxQ (initMajorState ctxNull).dirtySub = 0 := by
    have hsub : (initMajorState ctxNull).dirtySub = fun _ => (0 : ℚ) := rfl
    rw [hsub, maxQ]
    exact Finset.sup'_const Finset.univ_nonempty 0
  have hcond : ¬ majorCond 100 (1/1000000) 0 (initMajorState ctxNull) := by
    rintro ⟨-, -, -, h4⟩
    rw [hmax] at h4
    exact absurd h4 (lt_irrefl 0)
  have hloop := majorLoop_exit (fun s => s) 100 (1/1000000) 0 100
    (initMajorState ctxNull) hcond
  rw [hloop]
  exact ⟨rfl, rfl, rfl⟩

/-- C3, amended.  If the dirty image is all zeros and `flux_threshold` is
non-negative (its default is 0), the major loop exits immediately without
executing its body — whatever that body is: zero major iterations,
`max_coeff` still 1, `Model` all zeros. -/
theorem null_input_terminates_without_major_iteration {ι κ : Type}
    [Fintype κ] [Nonempty κ] (ctx : DriverCtx ι κ)
    (body : MajorState ι κ → MajorState ι κ) (miter fuel : ℕ)
    (accuracy fluxThreshold : ℚ) (hdirty : ctx.dirtyData = fun _ => 0)
    (hflux : 0 ≤ fluxThreshold) :
    majorLoop body miter accuracy fluxThreshold fuel (initMajorState ctx)
        = initMajorState ctx
      ∧ (initMajorState ctx).majorNiter = 0
      ∧ (initMajorState ctx).maxCoeff = 1
      ∧ (initMajorState ctx).model = fun _ => 0 := by
  have hsub : (initMajorState ctx).dirtySub = fun _ => (0 : ℚ) := by
    funext k
    simp [initMajorState, hdirty]
  have hmax : maxQ (initMajorState ctx).dirtySub = 0 := by
    rw [hsub, maxQ]
    exact Finset.sup'_const Finset.univ_nonempty 0
  have hcond : ¬ majorCond miter accuracy fluxThreshold (initMajorState ctx) := by
    rintro ⟨-, -, -, h4⟩
    rw [hmax] at h4
    exact absurd h4 (not_lt.mpr hflux)
  exact ⟨majorLoop_exit body miter accuracy fluxThreshold fuel
    (initMajorState ctx) hcond, rfl, rfl, rfl⟩

/-- Witness for C3's amended theorem at the concrete null context. -/
theorem null_input_witness :
    majorLoop (fun s => s) 100 (1/1000000) 0 50 (initMajorState ctxNull)
      = initMajorState ctxNull :=
  (null_input_terminates_without_major_iteration ctxNull (fun s => s) 100 50
    (1/1000000) 0 rfl (by norm_num)).1

/-- Zero-extension along `emb` preserves pointwise non-negativity. -/
lemma extendZero_nonneg {ι κ : Type} [Fintype κ] [DecidableEq ι]
    (emb : κ → ι) (x : κ → ℚ) (hx : ∀ k, 0 ≤ x k) :
    ∀ i, 0 ≤ extendZero emb x i := by
  intro i
  refine Finset.sum_nonneg fun k _ => ?_
  by_cases h : emb k = i
  · rw [if_pos h]; exact hx k
  · rw [if_neg h]

/-- A major accretion step with a non-negative gain and non-negative
solution preserves pointwise non-negativity of the model, whether it
accepts or reverts. -/
lemma accrete_model_nonneg {ι κ : Type} [Fintype κ] [DecidableEq ι]
    (ctx : DriverCtx ι κ) (g : ℚ) (x : κ → ℚ) (s : MajorState ι κ)
    (hg : 0 ≤ g) (hx : ∀ k, 0 ≤ x k) (hm : ∀ i, 0 ≤ s.model i) :
    ∀ i, 0 ≤ (accrete ctx g x s).model i := by
  intro i
  simp only [accrete]
  split_ifs with h
  · show 0 ≤ accreteModel1 ctx g x s i - g * extendZero ctx.emb x i
    have heq : accreteModel1 ctx g x s i - g * extendZero ctx.emb x i
        = s.model i := by
      simp only [accreteModel1]; ring
    rw [heq]
    exact hm i
  · show 0 ≤ accreteModel1 ctx g x s i
    simp only [accreteModel1]
    exact add_nonneg (hm i) (mul_nonneg hg (extendZero_nonneg ctx.emb x hx i))

/-- C6.  If `enforce_positivity` is set, the model is pointwise
non-negative at every checkpoint: the minor loop only ever returns a
clipped, pointwise non-negative solution (`main.py` lines 409-412), the
accretion adds `loop_gain ≥ 0` times that solution (line 498) or reverts
it exactly (line 513), so every state after any number of major-loop
iterations has a non-negative model, and at the end of the call the
session model `self.model += model` (line 535) stays non-negative as
well. -/
theorem enforce_positivity_model_nonneg {ι κ : Type} [Fintype κ]
    [Nonempty κ] [DecidableEq ι] (ctx : DriverCtx ι κ)
    (Pfun : MajorState ι κ → CGParams κ)
    (hP : ∀ s, (Pfun s).posEnforce = true) (g : ℚ) (hg : 0 ≤ g)
    (miterMinor : ℕ) (bFun : MajorState ι κ → κ → ℚ)
    (msFun : MajorState ι κ → ℕ) (miter : ℕ)
    (accuracy fluxThreshold : ℚ) (fuel : ℕ) (s0 : MajorState ι κ)
    (h0 : ∀ i, 0 ≤ s0.model i) (sessionModel : ι → ℚ)
    (hsm : ∀ i, 0 ≤ sessionModel i) :
    (∀ i, 0 ≤ (majorLoop (moresanePosBody ctx Pfun g miterMinor bFun msFun)
        miter accuracy fluxThreshold fuel s0).model i)
    ∧ ∀ i, 0 ≤ sessionModel i
        + (majorLoop (moresanePosBody ctx Pfun g miterMinor bFun msFun)
            miter accuracy fluxThreshold fuel s0).model i := by
  have hmain : ∀ (f : ℕ) (s : MajorState ι κ), (∀ i, 0 ≤ s.model i) →
      ∀ i, 0 ≤ (majorLoop (moresanePosBody ctx Pfun g miterMinor bFun msFun)
        miter accuracy fluxThreshold f s).model i := by
    intro f
    induction f with
    | zero => intro s hs i; exact hs i
    | succ n ih =>
      intro s hs i
      simp only [majorLoop]
      split_ifs with hc
      · refine ih (moresanePosBody ctx Pfun g miterMinor bFun msFun s) ?_ i
        intro j
        exact accrete_model_nonneg ctx g _ s hg
          (cgRun_x_nonneg (Pfun s) (hP s) miterMinor (bFun s) (msFun s)) hs j
      · exact hs i
  exact ⟨hmain fuel s0 h0, fun i => add_nonneg (hsm i) (hmain fuel s0 h0 i)⟩

/-- Minor-loop collaborators with `enforce_positivity` on, for the C6
witness. -/
def cgPosPex : CGParams (Fin 1) :=
  { Aop := fun v => v, snr := fun _ => 0, posEnforce := true }

/-- Witness for C6 at a concrete one-pixel run. -/
theorem enforce_positivity_witness :
    0 ≤ (majorLoop (moresanePosBody ctxOnePix (fun _ => cgPosPex) (1/10) 3
        (fun _ _ => 1) (fun _ => 0)) 2 (1/1000000) 0 2
        (initMajorState ctxOnePix)).model 0 :=
  (enforce_positivity_model_nonneg ctxOnePix (fun _ => cgPosPex) (fun _ => rfl)
    (1/10) (by norm_num) 3 (fun _ _ => 1) (fun _ => 0) 2 (1/1000000) 0 2
    (initMajorState ctxOnePix) (fun _ => le_refl 0) (fun _ => 0)
    (fun _ => le_refl 0)).1 0

/-! ## The scale-by-scale driver (`main.py` lines 538-614) -/

/-- Session state owned by a `FitsImage` object: the stored dirty image,
the accumulated model, the residual and the `complete` flag. -/
structure Session (ι : Type) where
  dirtyData : ι → ℚ
  model : ι → ℚ
  residual : ι → ℚ
  complete : Bool

/-- The `while` loop of `moresane_by_scale` (`main.py` lines 586-609):
while the session is not complete, run `moresane` at the current scale
(abstracted as `step`, which may update model, residual and the complete
flag — `moresane` never writes `self.dirty_data`, so value semantics is
faithful to the Python reference capture), substitute the residual for the
dirty image (line 599), increment the scale, and stop once the scale
exceeds `log2(H) - 1` (line 603, the real bound passed as `logBound`) or
`stop_scale` (line 607). -/
def byScaleLoop {ι : Type} (step : ℕ → Session ι → Session ι) (logBound : ℚ)
    (stopScale : ℕ) (scaleCount : ℕ) (s : Session ι) : Session ι :=
  if s.complete then s
  else
    let s2 : Session ι :=
      { step scaleCount s with dirtyData := (step scaleCount s).residual }
    if h : logBound < (scaleCount + 1 : ℚ) ∨ stopScale < scaleCount + 1 then s2
    else byScaleLoop step logBound stopScale (scaleCount + 1) s2
termination_by stopScale + 1 - scaleCount
decreasing_by
  omega

/-- `moresane_by_scale` (`main.py` lines 579-614): record the dirty image,
run the per-scale loop from `start_scale`, then restore the recorded dirty
image and reset the `complete` flag (lines 611-614). -/
def moresane_by_scale {ι : Type} (step : ℕ → Session ι → Session ι)
    (logBound : ℚ) (stopScale startScale : ℕ) (s : Session ι) : Session ι :=
  { byScaleLoop step logBound stopScale startScale s with
    dirtyData := s.dirtyData, complete := false }

/-- C10.  Whatever `moresane` does at each scale (any `step` that updates
model, residual and the completion flag), when `moresane_by_scale`
returns, the stored dirty image equals the original dirty image it started
with — the per-scale substitution of the residual for the dirty image is
undone by the restore at `main.py` line 613 — and the `complete` flag is
reset to `False` (line 614); the model and residual fields are exactly
those produced by the per-scale loop, so only they carry the results. -/
theorem by_scale_restores_dirty_and_resets_complete {ι : Type}
    (step : ℕ → Session ι → Session ι) (logBound : ℚ)
    (stopScale startScale : ℕ) (s : Session ι) :
    (moresane_by_scale step logBound stopScale startScale s).dirtyData
        = s.dirtyData
      ∧ (moresane_by_scale step logBound stopScale startScale s).complete = false
      ∧ (moresane_by_scale step logBound stopScale startScale s).model
          = (byScaleLoop step logBound stopScale startScale s).model
      ∧ (moresane_by_scale step logBound stopScale startScale s).residual
          = (byScaleLoop step logBound stopScale startScale s).residual :=
  ⟨rfl, rfl, rfl, rfl⟩

/-! ## Input validation (`main.py` lines 114-126) -/

/-- The only validation `moresane` performs before any deconvolution work
(`main.py` lines 116-118): raise `ValueError` when the first dimension of
the dirty image is odd.  The PSF shape is received but plays no role. -/
def moresane_input_check (dirtyShape _psfShape : ℕ × ℕ) : Except String Unit :=
  if dirtyShape.1 % 2 = 1 then
    Except.error "Image size is uneven. Please use even dimensions."
  else Except.ok ()

/-- The claim's notion of an invalid input, written from C8's wording: a
non-even image dimension, mismatched PSF/dirty shapes (the PSF is expected
at the dirty shape or at its double), or a non-power-of-two side. -/
def invalidInput (dirtyShape psfShape : ℕ × ℕ) : Prop :=
  dirtyShape.1 % 2 = 1 ∨ dirtyShape.2 % 2 = 1
    ∨ (psfShape ≠ dirtyShape ∧ psfShape ≠ (2 * dirtyShape.1, 2 * dirtyShape.2))
    ∨ ¬ ∃ k : ℕ, dirtyShape.1 = 2 ^ k

/-- C8, counterexample.  A `(6,6)` dirty image with a `(4,4)` PSF is
invalid on two of the claim's three counts (mismatched shapes, and 6 is
not a power of two), yet `moresane` raises nothing: the check passes and
the code proceeds to deconvolve. -/
theorem invalid_input_not_rejected :
    invalidInput (6, 6) (4, 4)
      ∧ moresane_input_check (6, 6) (4, 4) = Except.ok () := by
  constructor
  · exact Or.inr (Or.inr (Or.inl ⟨by decide, by decide⟩))
  · rfl

/-- C8, amended.  `moresane` fails fatally and immediately exactly on an
odd first image dimension (`main.py` lines 116-118); mismatched PSF/dirty
shapes and non-power-of-two sides are not checked anywhere before work
begins (numpy slicing silently clips a mismatched PSF). -/
theorem input_check_rejects_iff_odd (dirtyShape psfShape : ℕ × ℕ) :
    moresane_input_check dirtyShape psfShape
        = Except.error "Image size is uneven. Please use even dimensions."
      ↔ dirtyShape.1 % 2 = 1 := by
  unfold moresane_input_check
  split_ifs with h
  · simp [h]
  · simp [h]

/-! ## The minor-loop SNR statistic (C5)

`main.py` lines 428-439 compute `model_sources = extracted_sources_mask *
iuwt_decomposition(fft_convolve(xn, psf), max_scale, scale_adjust)` and
`snr_current = tools.snr_ratio(extracted_sources, model_sources)`.  The
modules computing the decomposition and the ratio are not in the source
tree, so they are modelled from the specification below.  Because the dB
statistic `20·log10(‖u‖/‖u−v‖)` equals `10·log10 q` for the squared norm
ratio `q = ‖u‖²/‖u−v‖²`, and `10·log10` is injective on positives, we
represent the statistic by `q`: equality or inequality of two statistics
is equivalent to that of their squared ratios whenever the norms are
nonzero. -/

/-- A cube of `s` wavelet detail scales of `n × n` images. -/
def Cube (s n : ℕ) : Type := Fin s → Image2 n

/-- Squared Frobenius norm of an image. -/
def normSqImg {n : ℕ} [NeZero n] (v : Image2 n) : ℚ :=
  ∑ i : ZMod n, ∑ j : ZMod n, v i j ^ 2

/-- Squared Frobenius norm of a cube (`np.linalg.norm` of the flattened
array, squared). -/
def normSqCube {s n : ℕ} [NeZero n] (c : Cube s n) : ℚ :=
  ∑ t : Fin s, normSqImg (c t)

/-- Modelled from the spec: the B3-spline scaling filter
`h = (1, 4, 6, 4, 1)/16` of §4.2 (the module `pymoresane.iuwt` is not in
the source tree). -/
def b3Tap (a : Fin 5) : ℚ :=
  if a = 2 then 3/8 else if a = 1 ∨ a = 3 then 1/4 else 1/16

/-- Modelled from the spec: the symmetric boundary extension of §4.2 — an
integer index reflected into `[0, n)` with period `2n`, edge pixels
repeated. -/
def reflectIdx (n : ℕ) (z : ℤ) : ℕ :=
  let m := (z % (2 * n : ℕ)).toNat
  if m < n then m else 2 * n - 1 - m

/-- Modelled from the spec (§4.2): one à-trous smoothing pass at scale
`t`, the separable B3-spline filter dilated by inserting `2^t - 1` zeros
between taps, with symmetric boundary extension. -/
def aTrousSmooth {n : ℕ} (t : ℕ) (img : Image2 n) : Image2 n :=
  fun i j =>
    ∑ a : Fin 5, ∑ b : Fin 5,
      b3Tap a * b3Tap b *
        img ((reflectIdx n ((i.val : ℤ) + ((a.val : ℤ) - 2) * 2 ^ t) : ℕ))
            ((reflectIdx n ((j.val : ℤ) + ((b.val : ℤ) - 2) * 2 ^ t) : ℕ))

/-- The smoothed sequence `c_t` of the à-trous transform: `c_0` is the
image, `c_{t+1} = c_t ⊛ h^{(t)}`. -/
def iuwtC {n : ℕ} (img : Image2 n) : ℕ → Image2 n
  | 0 => img
  | t + 1 => aTrousSmooth t (iuwtC img t)

/-- Modelled from the spec: `iuwt_decomposition(img, S, adj)` of §4.2 —
the detail scales `w_{adj+1} … w_S` with `w_{t+1} = c_t − c_{t+1}` (the
module `pymoresane.iuwt` is not in the source tree). -/
def iuwt_decomposition {n : ℕ} (img : Image2 n) (S adj : ℕ) :
    Cube (S - adj) n :=
  fun u i j => iuwtC img (adj + u.val) i j - iuwtC img (adj + u.val + 1) i j

/-- Modelled from the spec: `iuwt_recomposition` of §4.2 — "the synthesis
is the simple sum of the emitted detail scales" (the module
`pymoresane.iuwt` is not in the source tree). -/
def iuwt_recomposition {s n : ℕ} [NeZero n] (c : Cube s n) : Image2 n :=
  fun i j => ∑ t : Fin s, c t i j

/-- `model_sources` of `main.py` lines 428-431: the mask times the
decomposition of the convolved candidate solution, with no recomposition
applied. -/
def model_sources {n : ℕ} [NeZero n] (S adj : ℕ) (mask : Cube (S - adj) n)
    (psf xn : Image2 n) : Cube (S - adj) n :=
  fun u i j => mask u i j * iuwt_decomposition (fft_convolve xn psf) S adj u i j

/-- Modelled from the spec: `tools.snr_ratio(in1, in2)` (module
`pymoresane.iuwt_toolbox` is not in the source tree) — the dB value
`20·log10(‖in1‖/‖in1−in2‖)` of §4.6, represented by the squared norm
ratio `‖in1‖²/‖in1−in2‖²`. -/
def snr_ratio_sq {s n : ℕ} [NeZero n] (in1 in2 : Cube s n) : ℚ :=
  normSqCube in1 / normSqCube (fun u i j => in1 u i j - in2 u i j)

/-- The statistic the minor loop computes at `main.py` line 439 (as a
squared norm ratio): `snr_ratio(extracted_sources, model_sources)`. -/
def minor_snr_stat {n : ℕ} [NeZero n] (S adj : ℕ)
    (E mask : Cube (S - adj) n) (psf xn : Image2 n) : ℚ :=
  snr_ratio_sq E (model_sources S adj mask psf xn)

/-- The statistic asserted by the claim (as a squared norm ratio): with
`b = recompose(extracted_sources)` in the native domain and `A(xn)` the
analysis-project-**synthesis** operator, `(‖b‖/‖b − A(xn)‖)²`. -/
def native_snr_stat {n : ℕ} [NeZero n] (S adj : ℕ)
    (E mask : Cube (S - adj) n) (psf xn : Image2 n) : ℚ :=
  normSqImg (iuwt_recomposition E)
    / normSqImg (fun i j => iuwt_recomposition E i j
        - iuwt_recomposition (model_sources S adj mask psf xn) i j)

/-- The amended claim's formula, written from its words: the statistic is
computed entirely in the wavelet domain — the squared ratio of the cube
norm of `extracted_sources` to the cube norm of `extracted_sources` minus
the masked decomposition of `conv(xn, psf)`, with no recomposition. -/
def wavelet_snr_formula {n : ℕ} [NeZero n] (S adj : ℕ)
    (E mask : Cube (S - adj) n) (psf xn : Image2 n) : ℚ :=
  (∑ t : Fin (S - adj), ∑ i : ZMod n, ∑ j : ZMod n, E t i j ^ 2)
    / ∑ t : Fin (S - adj), ∑ i : ZMod n, ∑ j : ZMod n,
        (E t i j - mask t i j
          * iuwt_decomposition (fft_convolve xn psf) S adj t i j) ^ 2

/-- Enumeration of `ZMod 4`. -/
lemma zmod4_cases (i : ZMod 4) : i = 0 ∨ i = 1 ∨ i = 2 ∨ i = 3 := by
  revert i; decide

/-- Enumeration of `Fin 2`. -/
lemma fin2_cases (u : Fin 2) : u = 0 ∨ u = 1 := by
  revert u; decide

/-- Expansion of a sum over `ZMod 4`. -/
lemma zmod4_sum (f : ZMod 4 → ℚ) :
    (∑ i : ZMod 4, f i) = f 0 + f 1 + f 2 + f 3 := by
  have h : (Finset.univ : Finset (ZMod 4)) = {0, 1, 2, 3} := by decide
  rw [h, Finset.sum_insert (by decide), Finset.sum_insert (by decide),
    Finset.sum_insert (by decide), Finset.sum_singleton]
  ring

/-- Specialisation of the delta-convolution computation to the 4×4 grid:
convolving with the centre delta is the identity. -/
lemma fft_convolve_delta22 (img : Image2 4) :
    fft_convolve img (deltaImage 2 2) = img := by
  have h2 : fftshiftHalf 4 = 2 := by decide
  rw [show (deltaImage 2 2 : Image2 4)
      = deltaImage (fftshiftHalf 4) (fftshiftHalf 4) by rw [h2]]
  rw [fft_convolve_delta]
  funext i j
  rw [h2]
  have hz : ∀ z : ZMod 4, z - 2 - 2 = z := by decide
  rw [hz i, hz j]

/-- The concrete PSF of the C5 counterexample: a delta at the centre of
the 4×4 grid, so that the circular convolution is the identity. -/
def psfC5 : Image2 4 := deltaImage 2 2

/-- The concrete candidate solution of the C5 counterexample: a single
spike of amplitude 16 at the origin pixel. -/
def xnC5 : Image2 4 := fun i j => if i = 0 ∧ j = 0 then 16 else 0

/-- The extraction mask of the C5 counterexample: each of the two scales
retains only the origin pixel. -/
def maskC5 : Cube 2 4 := fun _ i j => if i = 0 ∧ j = 0 then 1 else 0

/-- The extracted-sources cube of the C5 counterexample: a unit
coefficient at the origin of the finest scale, supported inside the
mask. -/
def EC5 : Cube 2 4 := fun u i j => if u = 0 ∧ i = 0 ∧ j = 0 then 1 else 0

/-- One-dimensional weight profile of the first smoothing of `xnC5`. -/
def wC5 : ZMod 4 → ℚ := fun i =>
  if i = 0 then 10 else if i = 1 then 5 else if i = 2 then 1 else 0

/-- The first smoothed image `c_1` of `xnC5` in closed form. -/
def c1ex : Image2 4 := fun i j => wC5 i * wC5 j / 16

/-- The masked decomposition (`model_sources`) of the C5 counterexample in
closed form. -/
def MC5 : Cube 2 4 := fun u i j =>
  if i = 0 ∧ j = 0 then (if u = 0 then 39/4 else 1159/256) else 0

/-- Evaluation of the first à-trous smoothing of the spike `xnC5`. -/
lemma aTrousSmooth_xnC5 : aTrousSmooth 0 xnC5 = c1ex := by
  funext i j
  rcases zmod4_cases i with rfl | rfl | rfl | rfl <;>
    rcases zmod4_cases j with rfl | rfl | rfl | rfl <;>
    · rw [aTrousSmooth]
      simp only [Fin.sum_univ_five]
      norm_num +decide [b3Tap, xnC5, c1ex, wC5, reflectIdx, Int.toNat, ZMod.val]

/-- Evaluation of the second à-trous smoothing at the origin pixel. -/
lemma aTrousSmooth_c1ex : aTrousSmooth 1 c1ex 0 0 = 441/256 := by
  rw [aTrousSmooth]
  simp only [Fin.sum_univ_five]
  norm_num +decide [b3Tap, c1ex, wC5, reflectIdx, Int.toNat, ZMod.val]

/-- The finest emitted detail scale of a 2-scale decomposition. -/
lemma iuwt_decomposition_plane0 (img : Image2 4) (i j : ZMod 4) :
    iuwt_decomposition img 2 0 0 i j = img i j - aTrousSmooth 0 img i j := rfl

/-- The second emitted detail scale of a 2-scale decomposition. -/
lemma iuwt_decomposition_plane1 (img : Image2 4) (i j : ZMod 4) :
    iuwt_decomposition img 2 0 1 i j
      = aTrousSmooth 0 img i j - aTrousSmooth 1 (aTrousSmooth 0 img) i j := rfl

/-- The `model_sources` cube of the C5 counterexample, evaluated. -/
lemma model_sources_C5 : model_sources 2 0 maskC5 psfC5 xnC5 = MC5 := by
  have hconv : fft_convolve xnC5 psfC5 = xnC5 := fft_convolve_delta22 xnC5
  funext u i j
  show maskC5 u i j * iuwt_decomposition (fft_convolve xnC5 psfC5) 2 0 u i j
      = MC5 u i j
  rw [hconv]
  by_cases hij : i = 0 ∧ j = 0
  · obtain ⟨rfl, rfl⟩ := hij
    rcases fin2_cases u with rfl | rfl
    · rw [iuwt_decomposition_plane0, aTrousSmooth_xnC5]
      norm_num [maskC5, MC5, xnC5, c1ex, wC5]
    · rw [iuwt_decomposition_plane1, aTrousSmooth_xnC5, aTrousSmooth_c1ex]
      norm_num +decide [maskC5, MC5, c1ex, wC5]
  · have hm : maskC5 u i j = 0 := by
      rw [maskC5, if_neg hij]
    have hM : MC5 u i j = 0 := by
      rw [MC5, if_neg hij]
    rw [hm, hM, zero_mul]

/-- C5, counterexample.  The claim asserts that each minor-loop iteration
computes `snr = 20·log10(‖b‖/‖b − A(xn)‖)` with
`b = recompose(extracted_sources)` in the native domain and `A` the
analysis-project-synthesis operator.  At the concrete 4×4 state below
(spike solution, centre-delta PSF, two scales, origin-pixel mask, unit
extracted coefficient) the statistic the code computes on the
wavelet-domain cubes differs from the claim's native-domain formula —
`65536/6360881` versus `65536/11553201` as squared ratios — while all four
norms involved are positive, so both dB values are well defined and
differ. -/
theorem snr_statistic_counterexample :
    minor_snr_stat 2 0 EC5 maskC5 psfC5 xnC5
        ≠ native_snr_stat 2 0 EC5 maskC5 psfC5 xnC5
      ∧ 0 < normSqCube EC5
      ∧ 0 < normSqCube (fun u i j => EC5 u i j
          - model_sources 2 0 maskC5 psfC5 xnC5 u i j)
      ∧ 0 < normSqImg (iuwt_recomposition EC5)
      ∧ 0 < normSqImg (fun i j => iuwt_recomposition EC5 i j
          - iuwt_recomposition (model_sources 2 0 maskC5 psfC5 xnC5) i j) := by
  rw [minor_snr_stat, native_snr_stat, snr_ratio_sq, model_sources_C5]
  simp only [normSqCube, normSqImg, iuwt_recomposition, Nat.sub_zero,
    Fin.sum_univ_two, zmod4_sum]
  norm_num +decide [EC5, MC5]

/-- C5, amended.  The minor loop's termination statistic is computed in
the wavelet domain: (as squared norm ratios) it equals
`‖E‖²/‖E − mask ⊙ decompose(conv(xn, psf), max_scale, scale_adjust)‖²`
over the coefficient cubes, with no recomposition applied to either
argument — `main.py` lines 428-439 pass `extracted_sources` and the
non-recomposed `model_sources` to `snr_ratio`. -/
theorem minor_snr_stat_eq_wavelet_formula {n : ℕ} [NeZero n] (S adj : ℕ)
    (E mask : Cube (S - adj) n) (psf xn : Image2 n) :
    minor_snr_stat S adj E mask psf xn
      = wavelet_snr_formula S adj E mask psf xn := rfl

/-- Witness for C5's amended theorem at the concrete 4×4 state. -/
theorem minor_snr_stat_formula_witness :
    minor_snr_stat 2 0 EC5 maskC5 psfC5 xnC5
      = wavelet_snr_formula 2 0 EC5 maskC5 psfC5 xnC5 :=
  minor_snr_stat_eq_wavelet_formula 2 0 EC5 maskC5 psfC5 xnC5

end PyMoresane
